import Mathlib

/-!
Verification of the span-based SSML annotation model and compiler of
`src/app/page.tsx` (functions `escapeXml`, `buildSsmlFromTextAndMarks`,
`addSpanMark`, `addBreak`).  Text is modelled as `String` (a list of
characters), character offsets as `Nat`, fallible operations return
`Except`/a paired error option, and the stable `Array.prototype.sort`
used by the source is modelled as a stable insertion sort by the same
comparator key.
-/

namespace ArtAudio

/-- The `Mark` tagged union of `page.tsx`:
emphasis/prosody are span marks over `[start, stop)`, `brk` is the
zero-width break mark (`{kind:"break"; at; timeMs}`). -/
inductive Mark where
  | emphasis (start stop : Nat) (level : String)
  | prosody (start stop : Nat) (pitch rate volume : Option String)
  | brk (pos : Nat) (timeMs : Nat)
  deriving DecidableEq, Repr

/-- `m.kind !== "break"` in the source. -/
def isSpan : Mark → Bool
  | .brk _ _ => false
  | _ => true

/-- The sort key of the comparator in `buildSsmlFromTextAndMarks`:
`a.kind === "break" ? a.at : a.start`.  For span marks this is `start`. -/
def markPos : Mark → Nat
  | .brk p _ => p
  | .emphasis s _ _ => s
  | .prosody s _ _ _ _ => s

/-- The `end` offset of a span mark (unused for break marks). -/
def spanEnd : Mark → Nat
  | .brk p _ => p
  | .emphasis _ e _ => e
  | .prosody _ e _ _ _ => e

/-- `timeMs` of a break mark (unused for span marks). -/
def timeMs : Mark → Nat
  | .brk _ t => t
  | _ => 0

/-- The double-quote character. -/
def quoteChar : Char := Char.ofNat 34

/-- The apostrophe character. -/
def aposChar : Char := Char.ofNat 39

/-- `String.prototype.replaceAll` for a single-character pattern. -/
def replaceAllChar (l : List Char) (c : Char) (r : List Char) : List Char :=
  l.flatMap (fun x => if x = c then r else [x])

/-- The five sequential `replaceAll` stages of `escapeXml`, in source
order: `&`, `<`, `>`, `"`, `'`. -/
def escStages (l : List Char) : List Char :=
  replaceAllChar
    (replaceAllChar
      (replaceAllChar
        (replaceAllChar
          (replaceAllChar l '&' ("&amp;".data))
          '<' ("&lt;".data))
        '>' ("&gt;".data))
      quoteChar ("&quot;".data))
    aposChar ("&apos;".data)

/-- `escapeXml` of `page.tsx` (same function also appears in the
azure-tts route). -/
def escapeXml (s : String) : String :=
  String.mk (escStages s.data)

/-- Single-pass per-character entity substitution: the specification-side
characterisation of the escaping rule (each reserved character becomes
its entity, every other character is kept). -/
def escChar1 (c : Char) : List Char :=
  if c = '&' then "&amp;".data
  else if c = '<' then "&lt;".data
  else if c = '>' then "&gt;".data
  else if c = quoteChar then "&quot;".data
  else if c = aposChar then "&apos;".data
  else [c]

/-- A character that is not one of the reserved characters `< > " '`
(the raw ampersand is accounted for separately: it only occurs as the
head of an entity). -/
def notReservedChar (c : Char) : Bool :=
  !(decide (c = '<') || decide (c = '>') || decide (c = quoteChar) || decide (c = aposChar))

/-- JavaScript `text.slice(a, b)` on non-negative indices: clamps both
ends to the text bounds and yields the empty string when `b ≤ a`. -/
def sliceStr (s : String) (a b : Nat) : String :=
  String.mk ((s.data.drop a).take (b - a))

/-- The comparator relation of `marks.sort((a, b) => sa - sb)`. -/
def markLe (a b : Mark) : Prop := markPos a ≤ markPos b

instance : DecidableRel markLe := fun a b => Nat.decLe (markPos a) (markPos b)

instance : IsTotal Mark markLe := ⟨fun a b => Nat.le_total (markPos a) (markPos b)⟩

instance : IsTrans Mark markLe := ⟨fun _ _ _ h1 h2 => Nat.le_trans h1 h2⟩

/-- `[...opts.marks].sort((a, b) => sa - sb)`: a stable sort by the
comparator key (V8's sort is stable), modelled by stable insertion
sort. -/
def sortMarks (l : List Mark) : List Mark := l.insertionSort markLe

/-- Break mark sitting exactly at offset `p`. -/
def isBreakAtB (p : Nat) : Mark → Bool
  | .brk q _ => q == p
  | _ => false

/-- One `<break time="..ms"/>` element. -/
def breakElem (ms : Nat) : String := "<break time=\"" ++ toString ms ++ "ms\"/>"

/-- `emitBreaksAt(pos)`: the source builds `breaksByPos` by iterating
the sorted marks and appending each break's duration under its offset,
then emits the queued list at `pos`; this equals filtering the sorted
marks for breaks at `pos` and emitting each. -/
def emitBreaksAt (sorted : List Mark) (p : Nat) : String :=
  String.join ((sorted.filter (isBreakAtB p)).map (fun m => breakElem (timeMs m)))

/-- One optional prosody attribute: JavaScript `if (m.pitch)` treats
both `undefined` and the empty string as absent. -/
def attrStr (nm : String) (v : Option String) : List String :=
  match v with
  | none => []
  | some s => if s.isEmpty then [] else [nm ++ "=\"" ++ s ++ "\""]

/-- The per-span-kind wrapping of the escaped inner slice
(the `break` case is unreachable: the caller filters span marks). -/
def renderSpanEl (inner : String) : Mark → String
  | .emphasis _ _ level => "<emphasis level=\"" ++ level ++ "\">" ++ inner ++ "</emphasis>"
  | .prosody _ _ pitch rate volume =>
      let attrs := attrStr "pitch" pitch ++ attrStr "rate" rate ++ attrStr "volume" volume
      if attrs.isEmpty then inner
      else "<prosody " ++ String.intercalate " " attrs ++ ">" ++ inner ++ "</prosody>"
  | .brk _ _ => inner

/-- Consecutive-pair overlap re-check on the sorted span marks:
`spans[i].end > spans[i+1].start` throws; `spansOk` is `true` when no
consecutive pair violates `end ≤ start`. -/
def spansOk : List Mark → Bool
  | a :: b :: rest => decide (spanEnd a ≤ markPos b) && spansOk (b :: rest)
  | _ => true

/-- The error message thrown by `buildSsmlFromTextAndMarks` on
overlapping spans. -/
def overlapThrowMsg : String :=
  "Overlapping edits are not supported yet. Clear formatting and re-apply."

/-- The cursor loop `for (const m of spans)`: accumulates the output
string and the cursor.  `sorted` is the full sorted mark array (used for
break lookup), the recursion runs over the span marks. -/
def emitSpans (text : String) (sorted : List Mark) : List Mark → Nat → String → String × Nat
  | [], cursor, out => (out, cursor)
  | m :: rest, cursor, out =>
      emitSpans text sorted rest (spanEnd m)
        (out ++ emitBreaksAt sorted cursor
             ++ escapeXml (sliceStr text cursor (markPos m))
             ++ emitBreaksAt sorted (markPos m)
             ++ renderSpanEl (escapeXml (sliceStr text (markPos m) (spanEnd m))) m)

/-- The body of `buildSsmlFromTextAndMarks` after the defensive sort:
overlap re-check, cursor walk, trailing text and trailing breaks.
Returns the inner content that is interpolated into the voice
element. -/
def buildInnerFromSorted (text : String) (marks : List Mark) : Except String String :=
  let spans := marks.filter isSpan
  if spansOk spans then
    let res := emitSpans text marks spans 0 ""
    Except.ok (res.1 ++ emitBreaksAt marks res.2
                     ++ escapeXml (sliceStr text res.2 text.length)
                     ++ emitBreaksAt marks text.length)
  else Except.error overlapThrowMsg

/-- Inner content of the compiled document (the `out` variable of the
source), or the overlap error. -/
def buildSsmlInner (text : String) (marksIn : List Mark) : Except String String :=
  buildInnerFromSorted text (sortMarks marksIn)

/-- The SSML envelope: declaration, speak root with the two namespaces
and the escaped language tag, and the voice element with the escaped
voice name around the inner content. -/
def docWrap (voiceName lang out : String) : String :=
  "<?xml version=\"1.0\" encoding=\"utf-8\"?>\n<speak version=\"1.0\"\n  xmlns=\"http://www.w3.org/2001/10/synthesis\"\n  xmlns:mstts=\"https://www.w3.org/2001/mstts\"\n  xml:lang=\""
    ++ escapeXml lang ++ "\">\n  <voice name=\"" ++ escapeXml voiceName ++ "\">\n    "
    ++ out ++ "\n  </voice>\n</speak>"

/-- `buildSsmlFromTextAndMarks` of `page.tsx`: sort a copy of the marks,
re-check overlap, walk the text and wrap in the envelope.  A thrown
`Error` is modelled as `Except.error` carrying the message. -/
def buildSsmlFromTextAndMarks (text voiceName lang : String) (marks : List Mark) :
    Except String String :=
  (buildSsmlInner text marks).map (docWrap voiceName lang)

/-- State-passing form of the compile call: the source copies the marks
array (`[...opts.marks]`) and sorts the copy in place, so the caller's
marks array after the call is the untouched input; the pair returns
(compile result, caller's marks array after the call). -/
def buildSsmlCall (text voiceName lang : String) (marks : List Mark) :
    Except String String × List Mark :=
  let copy := sortMarks marks
  ((buildInnerFromSorted text copy).map (docWrap voiceName lang), marks)

/-- The overlap test of `addSpanMark`:
`!(mark.end <= m.start || mark.start >= m.end)`. -/
def overlapsB (m x : Mark) : Bool :=
  !(decide (spanEnd m ≤ markPos x) || decide (spanEnd x ≤ markPos m))

/-- Scan of the existing collection in `addSpanMark`, skipping break
marks (`if (m.kind === "break") continue`). -/
def hasOverlap (marks : List Mark) (m : Mark) : Bool :=
  marks.any (fun x => isSpan x && overlapsB m x)

/-- The alert message shown by `addSpanMark` on overlap. -/
def overlapAlertMsg : String :=
  "Overlapping edits are not supported yet. Click \x27Clear formatting\x27 and re-apply."

/-- `addSpanMark` of `page.tsx`: for a non-break mark, reject (leaving
the collection unchanged) when it overlaps an existing non-break mark,
otherwise append; break marks are appended unconditionally.  Returns
(error message if rejected, collection after the call). -/
def addSpanMark (marks : List Mark) (m : Mark) : Option String × List Mark :=
  if isSpan m && hasOverlap marks m then (some overlapAlertMsg, marks)
  else (none, marks ++ [m])

/-- `addBreak` of `page.tsx`: unconditionally appends a break mark at
the current selection offset; no validation of any kind is performed. -/
def addBreak (marks : List Mark) (p ms : Nat) : List Mark :=
  marks ++ [Mark.brk p ms]

/-- Folding a sequence of `addMark` requests over the empty collection,
keeping the collection state (failed calls leave it unchanged). -/
def addAll (reqs : List Mark) : List Mark :=
  reqs.foldl (fun st m => (addSpanMark st m).2) []

/-- Well-formedness of a request list: every span mark satisfies
`start < end` (the data-model invariant `0 ≤ start < end`; the UI only
produces such spans, from a non-empty textarea selection). -/
def wfReqs (reqs : List Mark) : Bool :=
  reqs.all (fun m => !isSpan m || decide (markPos m < spanEnd m))

/-- Every ordered pair of the list (first element before second)
satisfies `earlier.end ≤ later.start`. -/
def allPairsOk : List Mark → Bool
  | [] => true
  | x :: xs => xs.all (fun y => decide (spanEnd x ≤ markPos y)) && allPairsOk xs

/-- Whether a compile result is a document (not an error). -/
def isOkB : Except String String → Bool
  | .ok _ => true
  | .error _ => false

/-- Slicing the whole text: `text.slice(0)` is the text itself. -/
theorem sliceStr_zero_length (s : String) : sliceStr s 0 s.length = s := by
  show String.mk ((s.data.drop 0).take (s.length - 0)) = s
  rw [Nat.sub_zero, List.drop_zero]
  show String.mk (s.data.take s.data.length) = s
  rw [List.take_length]

/-- C1: for base text "Hello world" and the single mark
EmphasisMark(start 0, end 5, level strong), compile succeeds and the
inner content placed inside the voice element is exactly
the string <emphasis level="strong">Hello</emphasis> world. -/
theorem c1_hello_emphasis (voiceName lang : String) :
    buildSsmlInner "Hello world" [Mark.emphasis 0 5 "strong"]
      = Except.ok "<emphasis level=\"strong\">Hello</emphasis> world" ∧
    buildSsmlFromTextAndMarks "Hello world" voiceName lang [Mark.emphasis 0 5 "strong"]
      = Except.ok (docWrap voiceName lang
          "<emphasis level=\"strong\">Hello</emphasis> world") :=
  ⟨rfl, rfl⟩

/-- Safe separation of two marks: if both are span marks, one ends
before the other starts (in one of the two orders). -/
def compatP (a b : Mark) : Prop :=
  isSpan a = true → isSpan b = true → (spanEnd a ≤ markPos b ∨ spanEnd b ≤ markPos a)

theorem compatP_symm {a b : Mark} (h : compatP a b) : compatP b a :=
  fun hb ha => (h ha hb).symm

/-- Every span mark of the collection satisfies `start < end`. -/
def wfColl (st : List Mark) : Prop :=
  ∀ m ∈ st, isSpan m = true → markPos m < spanEnd m

/-- One `addSpanMark` call preserves well-formedness and pairwise
separation of the collection. -/
theorem addSpanMark_preserves (st : List Mark) (m : Mark)
    (hm : isSpan m = true → markPos m < spanEnd m)
    (h1 : wfColl st) (h2 : List.Pairwise compatP st) :
    wfColl (addSpanMark st m).2 ∧ List.Pairwise compatP (addSpanMark st m).2 := by
  unfold addSpanMark
  by_cases hc : (isSpan m && hasOverlap st m) = true
  · rw [if_pos hc]
    exact ⟨h1, h2⟩
  · rw [if_neg hc]
    constructor
    · intro x hx hsx
      rcases List.mem_append.mp hx with hx' | hx'
      · exact h1 x hx' hsx
      · have hxm : x = m := by simpa using hx'
        subst hxm; exact hm hsx
    · rw [List.pairwise_append]
      refine ⟨h2, List.pairwise_singleton _ _, ?_⟩
      intro a ha b hb
      have hb' : b = m := List.mem_singleton.mp hb
      rw [hb']
      intro hsa hsm
      have hov : hasOverlap st m = false := by
        cases hho : hasOverlap st m
        · rfl
        · exact absurd (by simp [hsm, hho]) hc
      have hany : ¬(isSpan a && overlapsB m a) = true := by
        rw [hasOverlap] at hov
        exact (List.any_eq_false.mp hov) a ha
      have hoab : overlapsB m a = false := by
        cases hob : overlapsB m a
        · rfl
        · exact absurd (by simp [hsa, hob]) hany
      have himp : markPos a < spanEnd m → spanEnd a ≤ markPos m := by
        simpa [overlapsB] using hoab
      have hor : spanEnd m ≤ markPos a ∨ spanEnd a ≤ markPos m := by
        by_cases hcase : spanEnd m ≤ markPos a
        · exact Or.inl hcase
        · exact Or.inr (himp (Nat.lt_of_not_le hcase))
      exact hor.symm

/-- Folding `addSpanMark` calls over a starting state preserves the
invariant. -/
theorem addAll_go (reqs : List Mark) : ∀ st : List Mark,
    (∀ m ∈ reqs, isSpan m = true → markPos m < spanEnd m) →
    wfColl st → List.Pairwise compatP st →
    wfColl (reqs.foldl (fun s m => (addSpanMark s m).2) st) ∧
    List.Pairwise compatP (reqs.foldl (fun s m => (addSpanMark s m).2) st) := by
  induction reqs with
  | nil => exact fun st _ h1 h2 => ⟨h1, h2⟩
  | cons r rs ih =>
    intro st hreq h1 h2
    rw [List.foldl_cons]
    have step := addSpanMark_preserves st r (hreq r (by simp)) h1 h2
    exact ih _ (fun m hm => hreq m (by simp [hm])) step.1 step.2

/-- A list of span marks that is sorted by start, pairwise compatible
and well formed satisfies the ordered-pairs check. -/
theorem allPairsOk_of_pairwise (l : List Mark)
    (hp : List.Pairwise compatP l) (hs : List.Pairwise markLe l)
    (hsp : ∀ m ∈ l, isSpan m = true) (hw : ∀ m ∈ l, markPos m < spanEnd m) :
    allPairsOk l = true := by
  induction l with
  | nil => rfl
  | cons x xs ih =>
    simp only [allPairsOk, Bool.and_eq_true]
    constructor
    · rw [List.all_eq_true]
      intro y hy
      have hcp := (List.pairwise_cons.mp hp).1 y hy
      have hle : markPos x ≤ markPos y := (List.pairwise_cons.mp hs).1 y hy
      have hx := hsp x (List.mem_cons_self x xs)
      have hyS := hsp y (List.mem_cons_of_mem x hy)
      have hwy := hw y (List.mem_cons_of_mem x hy)
      rcases hcp hx hyS with h | h
      · exact decide_eq_true h
      · exfalso; omega
    · exact ih (List.pairwise_cons.mp hp).2 (List.pairwise_cons.mp hs).2
        (fun m hm => hsp m (List.mem_cons_of_mem x hm))
        (fun m hm => hw m (List.mem_cons_of_mem x hm))

/-- C2: for every sequence of addMark calls over well-formed marks
(span marks satisfy start < end), starting from the empty collection,
after the calls every ordered pair of span marks of the collection,
sorted by start offset, satisfies earlier.end ≤ later.start (failed
calls leave the collection unchanged, so this holds after each call);
and a span mark whose start equals an existing span mark's end is
admitted (exact shared boundaries are allowed). -/
theorem c2_no_overlap_invariant (reqs : List Mark) (h : wfReqs reqs = true) :
    allPairsOk ((sortMarks (addAll reqs)).filter isSpan) = true ∧
    ∀ s e e2 : Nat, ∀ lv lv2 : String,
      (addSpanMark [Mark.emphasis s e lv] (Mark.emphasis e e2 lv2)).1 = none := by
  constructor
  · have hreq : ∀ m ∈ reqs, isSpan m = true → markPos m < spanEnd m := by
      rw [wfReqs, List.all_eq_true] at h
      intro m hm hsm
      have hh := h m hm
      simp [hsm] at hh
      exact hh
    have hst := addAll_go reqs [] hreq
      (fun m hm => absurd hm (List.not_mem_nil m)) List.Pairwise.nil
    have hperm : List.Perm (sortMarks (addAll reqs)) (addAll reqs) :=
      List.perm_insertionSort markLe (addAll reqs)
    have hpair : List.Pairwise compatP (sortMarks (addAll reqs)) :=
      hperm.symm.pairwise hst.2 (fun h => compatP_symm h)
    have hsorted : List.Pairwise markLe (sortMarks (addAll reqs)) :=
      List.sorted_insertionSort markLe (addAll reqs)
    apply allPairsOk_of_pairwise
    · exact hpair.filter isSpan
    · exact hsorted.filter isSpan
    · exact fun m hm => (List.mem_filter.mp hm).2
    · intro m hm
      exact hst.1 m (hperm.subset (List.mem_filter.mp hm).1) (List.mem_filter.mp hm).2
  · intro s e e2 lv lv2
    simp [addSpanMark, hasOverlap, overlapsB, isSpan, spanEnd, markPos]

/-- C2 witness: the sequence emphasis [0,5), emphasis [5,8) (sharing
the boundary 5), break at 5 is fully admitted and the resulting
collection satisfies the ordered-pairs invariant. -/
theorem c2_no_overlap_invariant_witness :
    wfReqs [Mark.emphasis 0 5 "strong", Mark.emphasis 5 8 "moderate", Mark.brk 5 100] = true ∧
    allPairsOk ((sortMarks (addAll [Mark.emphasis 0 5 "strong", Mark.emphasis 5 8 "moderate",
        Mark.brk 5 100])).filter isSpan) = true ∧
    addAll [Mark.emphasis 0 5 "strong", Mark.emphasis 5 8 "moderate", Mark.brk 5 100]
      = [Mark.emphasis 0 5 "strong", Mark.emphasis 5 8 "moderate", Mark.brk 5 100] :=
  ⟨by decide, (c2_no_overlap_invariant _ (by decide)).1, by decide⟩

/-- C3: adding a span mark that overlaps an existing span mark fails
with the overlap error and performs no mutation: the collection after
the call is exactly the collection before it. -/
theorem c3_overlap_rejected (marks : List Mark) (m : Mark)
    (hspan : isSpan m = true) (hov : hasOverlap marks m = true) :
    addSpanMark marks m = (some overlapAlertMsg, marks) := by
  simp [addSpanMark, hspan, hov]

/-- C3 witness (end-to-end scenario 3): a prosody mark over [2,8)
against an existing emphasis mark over [0,5) is rejected and the
collection still holds only the original mark. -/
theorem c3_overlap_rejected_witness :
    isSpan (Mark.prosody 2 8 (some "+20%") none none) = true ∧
    hasOverlap [Mark.emphasis 0 5 "moderate"] (Mark.prosody 2 8 (some "+20%") none none) = true ∧
    addSpanMark [Mark.emphasis 0 5 "moderate"] (Mark.prosody 2 8 (some "+20%") none none)
      = (some overlapAlertMsg, [Mark.emphasis 0 5 "moderate"]) :=
  ⟨by decide, by decide, c3_overlap_rejected _ _ (by decide) (by decide)⟩

/-- C5 (amended): `addBreak` performs no validation at all — it always
succeeds and appends the break mark, for any offset, growing the
collection by exactly one. -/
theorem c5_add_break_unchecked (marks : List Mark) (p ms : Nat) :
    addBreak marks p ms = marks ++ [Mark.brk p ms] ∧
    (addBreak marks p ms).length = marks.length + 1 :=
  ⟨rfl, by simp [addBreak]⟩

/-- C5 counterexample: for base text "Hello" (length 5), adding a break
mark at the out-of-range offset 100 does not fail — the mark is
appended (so the claimed RangeError failure with no mutation is false). -/
theorem c5_counterexample :
    100 > ("Hello" : String).length ∧ addBreak [] 100 200 = [Mark.brk 100 200] :=
  ⟨by decide, rfl⟩

/-- Each escaping stage distributes over list append. -/
theorem escStages_append (l1 l2 : List Char) :
    escStages (l1 ++ l2) = escStages l1 ++ escStages l2 := by
  simp [escStages, replaceAllChar, List.flatMap_append]

/-- On a single character, the five ordered replaceAll stages agree
with the single-pass entity substitution: escaping the ampersand first
means the ampersands introduced by the other substitutions are never
re-escaped. -/
theorem escStages_single (c : Char) : escStages [c] = escChar1 c := by
  by_cases h1 : c = '&'
  · subst h1; rfl
  · by_cases h2 : c = '<'
    · subst h2; rfl
    · by_cases h3 : c = '>'
      · subst h3; rfl
      · by_cases h4 : c = quoteChar
        · subst h4; rfl
        · by_cases h5 : c = aposChar
          · subst h5; rfl
          · simp [escStages, replaceAllChar, escChar1, h1, h2, h3, h4, h5]

/-- The sequential escaping equals the per-character substitution. -/
theorem escStages_eq_flatMap (l : List Char) : escStages l = l.flatMap escChar1 := by
  induction l with
  | nil => rfl
  | cons c cs ih =>
    have hsplit : c :: cs = [c] ++ cs := rfl
    rw [hsplit, escStages_append, escStages_single, ih, List.flatMap_append]
    simp

/-- The entity substitution of any single character contains no raw
reserved character other than the entity-leading ampersand. -/
theorem escChar1_notReserved (c : Char) : (escChar1 c).all notReservedChar = true := by
  by_cases h1 : c = '&'
  · subst h1; rfl
  · by_cases h2 : c = '<'
    · subst h2; rfl
    · by_cases h3 : c = '>'
      · subst h3; rfl
      · by_cases h4 : c = quoteChar
        · subst h4; rfl
        · by_cases h5 : c = aposChar
          · subst h5; rfl
          · simp [escChar1, notReservedChar, h1, h2, h3, h4, h5]

/-- C6: the escaping function applied by compile to every raw text
slice and to voiceName/languageTag performs, in source order, the five
substitutions amp, lt, gt, quot, apos; the result is exactly the
concatenation of the per-character entity substitutions (so nothing is
double-escaped), it contains no raw reserved character among < > " ',
and a compilation with no marks places exactly the escaped text as the
document's plain-text region. -/
theorem c6_escaping (s : String) :
    escapeXml s = String.mk (s.data.flatMap escChar1) ∧
    (escapeXml s).data.all notReservedChar = true ∧
    buildSsmlInner s [] = Except.ok (escapeXml s) := by
  refine ⟨?_, ?_, ?_⟩
  · rw [escapeXml, escStages_eq_flatMap]
  · show (escStages s.data).all notReservedChar = true
    rw [escStages_eq_flatMap]
    induction s.data with
    | nil => rfl
    | cons c cs ih =>
      rw [List.flatMap_cons, List.all_append, Bool.and_eq_true]
      exact ⟨escChar1_notReserved c, ih⟩
  · show buildInnerFromSorted s [] = Except.ok (escapeXml s)
    simp [buildInnerFromSorted, emitSpans, emitBreaksAt, spansOk, String.join,
      sliceStr_zero_length]

/-- End-to-end scenario 2: text with a raw ampersand and no marks
compiles to the escaped text. -/
theorem scenario2_ampersand :
    buildSsmlInner "A & B" [] = Except.ok "A &amp; B" := rfl

/-- C7: if the sorted span marks contain an adjacent overlapping pair,
compile fails with the overlap error and returns no document at all. -/
theorem c7_overlap_compile_fails (text voiceName lang : String) (marks : List Mark)
    (h : spansOk ((sortMarks marks).filter isSpan) = false) :
    buildSsmlFromTextAndMarks text voiceName lang marks = Except.error overlapThrowMsg := by
  simp [buildSsmlFromTextAndMarks, buildSsmlInner, buildInnerFromSorted, h, Except.map]

/-- C7 witness: an emphasis over [0,5) and a prosody over [2,8) overlap
after sorting, and compile fails with the overlap error. -/
theorem c7_overlap_compile_fails_witness :
    spansOk ((sortMarks [Mark.emphasis 0 5 "strong",
        Mark.prosody 2 8 (some "+20%") none none]).filter isSpan) = false ∧
    buildSsmlFromTextAndMarks "Hello world" "v" "en-US"
        [Mark.emphasis 0 5 "strong", Mark.prosody 2 8 (some "+20%") none none]
      = Except.error overlapThrowMsg :=
  ⟨by decide, c7_overlap_compile_fails _ _ _ _ (by decide)⟩

/-- Inserting a mark into a list never disturbs the filtered
subsequence of marks selected by a predicate that pins the sort key:
either the inserted mark heads that subsequence (it skips only
strictly smaller keys) or the subsequence is unchanged. -/
theorem filter_orderedInsert_key (q : Mark → Bool) (k : Nat)
    (hq : ∀ m, q m = true → markPos m = k) (x : Mark) :
    ∀ S : List Mark, (List.orderedInsert markLe x S).filter q
      = if q x then x :: S.filter q else S.filter q := by
  intro S
  induction S with
  | nil =>
    cases hqx : q x <;> simp [List.orderedInsert, List.filter, hqx]
  | cons y ys ih =>
    by_cases hr : markLe x y
    · cases hqx : q x <;> simp [List.orderedInsert, hr, List.filter_cons, hqx]
    · cases hqx : q x
      · cases hqy : q y <;>
          simp [List.orderedInsert, hr, List.filter_cons, hqx, hqy, ih]
      · have hky : q y = false := by
          cases hqy : q y
          · rfl
          · exact absurd (by rw [markLe, hq x hqx, hq y hqy]) hr
        simp [List.orderedInsert, hr, List.filter_cons, hky, ih, hqx]

/-- Stability of the sort on a fixed key: the marks selected by a
key-pinning predicate appear in the sorted array in their original
(insertion) order. -/
theorem filter_sortMarks_key (q : Mark → Bool) (k : Nat)
    (hq : ∀ m, q m = true → markPos m = k) :
    ∀ l : List Mark, (sortMarks l).filter q = l.filter q := by
  intro l
  induction l with
  | nil => rfl
  | cons x xs ih =>
    show (List.orderedInsert markLe x (List.insertionSort markLe xs)).filter q = _
    rw [filter_orderedInsert_key q k hq x]
    cases hqx : q x <;> simp [hqx, List.filter_cons] <;> exact ih

/-- A break mark at offset `p` has sort key `p`. -/
theorem isBreakAtB_pos (p : Nat) (m : Mark) (h : isBreakAtB p m = true) : markPos m = p := by
  cases m with
  | brk q t => simpa [isBreakAtB, markPos] using h
  | emphasis s e lv => simp [isBreakAtB] at h
  | prosody s e a b c => simp [isBreakAtB] at h

/-- A collection that holds only break marks has no span marks after
sorting. -/
theorem filter_isSpan_nil (marks : List Mark)
    (h : marks.all (fun m => !isSpan m) = true) :
    (sortMarks marks).filter isSpan = [] := by
  rw [List.filter_eq_nil_iff]
  intro m hm
  have hmem : m ∈ marks := (List.perm_insertionSort markLe marks).subset hm
  have hns := List.all_eq_true.mp h m hmem
  simp at hns
  simp [hns]

/-- C4 (amended): break marks sharing an offset keep their insertion
order in the sorted array (the sort is stable on the offset key), but
the compiler emits breaks only at the cursor stop positions it visits.
For a collection of break marks only, the compiled inner content is
the breaks queued at offset 0, the whole escaped text, and the breaks
queued at offset length(text): break marks at any interior offset are
silently dropped, not emitted exactly once as claimed. -/
theorem c4_breaks_corrected (text voiceName lang : String) (marks : List Mark) (p : Nat)
    (h : marks.all (fun m => !isSpan m) = true) :
    emitBreaksAt (sortMarks marks) p
      = String.join ((marks.filter (isBreakAtB p)).map (fun m => breakElem (timeMs m))) ∧
    buildSsmlFromTextAndMarks text voiceName lang marks
      = Except.ok (docWrap voiceName lang
          (emitBreaksAt (sortMarks marks) 0 ++ escapeXml text
            ++ emitBreaksAt (sortMarks marks) text.length)) := by
  constructor
  · rw [emitBreaksAt, filter_sortMarks_key (isBreakAtB p) p (isBreakAtB_pos p)]
  · rw [buildSsmlFromTextAndMarks, buildSsmlInner]
    simp [buildInnerFromSorted, filter_isSpan_nil marks h, spansOk, emitSpans,
      sliceStr_zero_length, Except.map]

/-- C4 counterexample (the spec's end-to-end scenario 4): for text
"Pause here" with BreakMark(at 5, 200ms) then BreakMark(at 5, 100ms),
the compiled inner content is exactly the escaped text with no break
element at all — the two pause elements are not emitted at position 5. -/
theorem c4_counterexample :
    buildSsmlInner "Pause here" [Mark.brk 5 200, Mark.brk 5 100] = Except.ok "Pause here" :=
  rfl

/-- C4 witness: the two breaks at offset 5 are kept in insertion order
by the sort (200ms before 100ms), yet the compiled document contains
only the breaks queued at offsets 0 and 10 — none. -/
theorem c4_breaks_corrected_witness :
    ([Mark.brk 5 200, Mark.brk 5 100].all (fun m => !isSpan m)) = true ∧
    emitBreaksAt (sortMarks [Mark.brk 5 200, Mark.brk 5 100]) 5
      = "<break time=\"200ms\"/><break time=\"100ms\"/>" ∧
    buildSsmlFromTextAndMarks "Pause here" "v" "en-US" [Mark.brk 5 200, Mark.brk 5 100]
      = Except.ok (docWrap "v" "en-US"
          (emitBreaksAt (sortMarks [Mark.brk 5 200, Mark.brk 5 100]) 0
            ++ escapeXml "Pause here"
            ++ emitBreaksAt (sortMarks [Mark.brk 5 200, Mark.brk 5 100]) ("Pause here").length)) :=
  ⟨by decide, rfl, (c4_breaks_corrected "Pause here" "v" "en-US" _ 5 (by decide)).2⟩

/-- C8: compile is a pure function of (baseText, marks, voiceName,
languageTag): two calls with identical inputs return the identical
result, also when that result is a failure. -/
theorem c8_deterministic (t1 t2 v1 v2 l1 l2 : String) (m1 m2 : List Mark)
    (ht : t1 = t2) (hv : v1 = v2) (hl : l1 = l2) (hm : m1 = m2) :
    buildSsmlFromTextAndMarks t1 v1 l1 m1 = buildSsmlFromTextAndMarks t2 v2 l2 m2 := by
  subst ht; subst hv; subst hl; subst hm; rfl

/-- C8 witness: two identical calls on a concrete input coincide. -/
theorem c8_deterministic_witness :
    buildSsmlFromTextAndMarks "A & B" "v" "en-US" []
      = buildSsmlFromTextAndMarks "A & B" "v" "en-US" [] :=
  c8_deterministic _ _ _ _ _ _ _ _ rfl rfl rfl rfl

/-- C9: compile never mutates its marks argument: the source sorts a
spread copy, so in the state-passing model the caller's marks sequence
after the call is exactly the input, and the returned result is the
compile result. -/
theorem c9_marks_not_mutated (text voiceName lang : String) (marks : List Mark) :
    (buildSsmlCall text voiceName lang marks).2 = marks ∧
    (buildSsmlCall text voiceName lang marks).1
      = buildSsmlFromTextAndMarks text voiceName lang marks :=
  ⟨rfl, rfl⟩

/-- C10: compile performs no offset range validation: whenever the
sorted span marks pass the pairwise non-overlap check, compile returns
a document, even when offsets exceed the text length (slices clamp). -/
theorem c10_no_range_check (text voiceName lang : String) (marks : List Mark)
    (h : spansOk ((sortMarks marks).filter isSpan) = true) :
    isOkB (buildSsmlFromTextAndMarks text voiceName lang marks) = true := by
  simp [buildSsmlFromTextAndMarks, buildSsmlInner, buildInnerFromSorted, h, Except.map, isOkB]

/-- C10 witness: base text "Hi" (length 2) with a span over [0,10) and
a break at offset 50 compiles to a document; the span slice is clamped
to the text bounds. -/
theorem c10_no_range_check_witness :
    spansOk ((sortMarks [Mark.emphasis 0 10 "strong", Mark.brk 50 7]).filter isSpan) = true ∧
    isOkB (buildSsmlFromTextAndMarks "Hi" "v" "en-US"
        [Mark.emphasis 0 10 "strong", Mark.brk 50 7]) = true ∧
    buildSsmlInner "Hi" [Mark.emphasis 0 10 "strong", Mark.brk 50 7]
      = Except.ok "<emphasis level=\"strong\">Hi</emphasis>" :=
  ⟨by decide, c10_no_range_check _ _ _ _ (by decide), rfl⟩

end ArtAudio
